import Mathlib

/-
Verification development for the training driver `pytorchyolo/train.py` of
the PyTorch-YOLOv3 repository.

The file shallowly embeds the orchestration logic of the `run` function:
the hyperparameter record, the optimizer selection (lines 175-188), the
learning-rate schedule (lines 215-231), the per-batch processing of the
training loop (lines 199-262), the per-epoch checkpointing (lines 273-276),
the evaluation block with its metric logging and best-checkpoint logic
(lines 282-319), and the trailing duplicated batch/validation loops
(lines 320-341).

External collaborators (the model forward pass, `compute_loss`,
`loss.backward()`, `optimizer.step()`, `_evaluate`, the data loaders) are
opaque in the source; they are modelled as oracle fields of a `Collab`
record.  Machine floats are modelled as rationals.  Effects on the two
logging sinks (the TensorBoard `logger` and the sacred experiment `ex`),
checkpoint writes and the optimizer warning print are recorded in an event
trace.  Python `NameError`s caused by reading a never-assigned local
(`loss`, `evaluation_metrics`) are modelled by `Except.error`.
-/

namespace YOLOv3Train

/-- Checkpoint paths written by the script: the epoch-named file
`checkpoints/yolov3_ckpt_<e>.pth` (line 274) and the fixed best path
`checkpoints/best_ckpt.pth` (line 317). -/
inductive CkptPath where
  | epochCkpt (epoch : Nat)
  | bestCkpt
  deriving DecidableEq, Repr

/-- Externally visible events of the training script: TensorBoard scalar and
scalar-list logging, sacred scalar logging, checkpoint writes, the printed
optimizer warning, and calls into the `_evaluate` collaborator. -/
inductive Event where
  | tbScalar (tag : String) (value : ℚ) (step : Nat)
  | tbList (values : List (String × ℚ)) (step : Nat)
  | sacredScalar (tag : String) (value : ℚ) (step : Nat)
  | save (path : CkptPath)
  | printed (msg : String)
  | evalCall (subset : String) (epoch : Nat)
  deriving DecidableEq, Repr

/-- The hyperparameters the script reads from `model.hyperparams`
(populated from the darknet cfg file by the model provider), plus nothing
else: `batch`, `subdivisions`, `learning_rate`, `burn_in`, `lr_steps`,
`optimizer`, `decay`, `momentum`, `height`. -/
structure Hyperparams where
  batch : Nat
  subdivisions : Nat
  learning_rate : ℚ
  burn_in : Nat
  lr_steps : List (Nat × ℚ)
  optimizer : Option String
  decay : ℚ
  momentum : ℚ
  height : Nat
  deriving DecidableEq, Repr

/-- Output of the `_evaluate` collaborator when it returns metrics:
per-class arrays of precision, recall, AP and F1, plus the class index
array (`precision, recall, AP, f1, ap_class = metrics_output`). -/
structure EvalArrays where
  precision : List ℚ
  /-- the `recall` array (named `recallArr` here because `recall` is a
  Lean command keyword) -/
  recallArr : List ℚ
  AP : List ℚ
  f1 : List ℚ
  ap_class : List Nat
  deriving DecidableEq, Repr

/-- `numpy` array mean, used for `precision.mean()` etc. (lines 304-307). -/
def mean (l : List ℚ) : ℚ := l.sum / l.length

/-- Oracles for the external collaborators invoked by the training loop.
Each is indexed by the data that determines it in a fixed run: per-batch
quantities by the global `batches_done` counter, evaluation output by
epoch and subset name, the duplicated trailing loops by epoch and batch
index. -/
structure Collab where
  /-- `len(training_dataloader)` -/
  numBatches : Nat
  /-- `len(validation_dataloader)` -/
  numValBatches : Nat
  /-- `imgs.size(0)` for the batch at this `batches_done` counter -/
  batchSize : Nat → Nat
  /-- the gradient contribution accumulated by `loss.backward()` -/
  gradC : Nat → ℚ
  /-- `to_cpu(loss).item()` -/
  lossV : Nat → ℚ
  /-- `loss_components[0..3]`: IoU, object, class, total -/
  lossComps : Nat → ℚ × ℚ × ℚ × ℚ
  /-- `optimizer.step()`: old parameters, accumulated gradient, learning
  rate ↦ new parameters -/
  optStep : ℚ → ℚ → ℚ → ℚ
  /-- `_evaluate(model, dataloader, ...)`: `metrics_output`, which the
  script compares against `None` -/
  evalOut : Nat → String → Option EvalArrays
  /-- loss recomputed by the duplicated training loop (lines 322-330) -/
  extraTrainLoss : Nat → Nat → ℚ
  /-- loss recomputed by the trailing validation loop (lines 334-340) -/
  extraValLoss : Nat → Nat → ℚ

/-- The mutable state the orchestration loop threads along: the model
parameters (abstracted to one rational), the accumulated gradient, the
`model.seen` counter, the `lr` entry of every optimizer parameter group,
and the Python locals `evaluation_metrics` and `loss`
(`none` = not yet assigned). -/
structure TrainState where
  params : ℚ
  gradAcc : ℚ
  seen : Nat
  lrGroups : List ℚ
  evalMetrics : Option (List (String × ℚ))
  lastLoss : Option ℚ
  deriving DecidableEq, Repr

/-- Initial state: fresh gradients, `model.seen = 0`, one optimizer
parameter group holding the cfg learning rate, no local bound yet. -/
def initState (p lr0 : ℚ) : TrainState :=
  { params := p, gradAcc := 0, seen := 0, lrGroups := [lr0],
    evalMetrics := none, lastLoss := none }

/-- Optimizer selection, lines 175-188: Adam for `None`/`"adam"`, SGD for
`"sgd"`, otherwise only a printed warning and no optimizer is bound. -/
inductive OptimizerKind where
  | adam
  | sgd
  deriving DecidableEq, Repr

/-- `selectOptimizer hp` returns the optimizer bound by lines 175-188
(`none` when the script falls into the warning branch) together with the
events it emits.  The construction itself never raises. -/
def selectOptimizer (hp : Hyperparams) : Option OptimizerKind × List Event :=
  if hp.optimizer = none ∨ hp.optimizer = some "adam" then
    (some OptimizerKind.adam, [])
  else if hp.optimizer = some "sgd" then
    (some OptimizerKind.sgd, [])
  else
    (none, [Event.printed "Unknown optimizer. Please choose between (adam, sgd)."])

/-- The learning-rate policy of lines 218-226: start from the cfg
`learning_rate`; during burn-in scale by `batches_done / burn_in`;
afterwards multiply by `value` for every `(threshold, value)` entry of
`lr_steps` with `batches_done > threshold`. -/
def lr_at (hp : Hyperparams) (batches_done : Nat) : ℚ :=
  if batches_done < hp.burn_in then
    hp.learning_rate * ((batches_done : ℚ) / (hp.burn_in : ℚ))
  else
    hp.lr_steps.foldl
      (fun lr tv => if tv.1 < batches_done then lr * tv.2 else lr)
      hp.learning_rate

/-- Restatement of the schedule following the words of the spec: a linear
ramp to `base_lr` on `[0, burn_in)`, then `base_lr` times the product of
the multipliers of all schedule entries whose threshold is exceeded. -/
def lr_spec (hp : Hyperparams) (batches_done : Nat) : ℚ :=
  if batches_done < hp.burn_in then
    hp.learning_rate * ((batches_done : ℚ) / (hp.burn_in : ℚ))
  else
    hp.learning_rate *
      ((hp.lr_steps.filter (fun tv => tv.1 < batches_done)).map Prod.snd).prod

/-- The global batch counter of line 200:
`batches_done = len(training_dataloader) * epoch + batch_i`. -/
def batchesDone (numBatches epoch batch_i : Nat) : Nat :=
  numBatches * epoch + batch_i

/-- The `batches_done` values of one epoch's training loop, in order. -/
def batchIndices (numBatches epoch : Nat) : List Nat :=
  (List.range numBatches).map (fun batch_i => batchesDone numBatches epoch batch_i)

/-- One iteration of the training batch loop, lines 199-262: accumulate
the gradient from `loss.backward()`; when
`batches_done % subdivisions == 0`, log the schedule rate, write it into
every optimizer parameter group, run `optimizer.step()` and clear the
gradients; log the TensorBoard loss scalars; add `imgs.size(0)` to
`model.seen`.  Returns the new state and the emitted events. -/
def processBatch (hp : Hyperparams) (C : Collab) (bd : Nat) (s : TrainState) :
    TrainState × List Event :=
  let g := s.gradAcc + C.gradC bd
  let comps := C.lossComps bd
  let tbEv : Event := Event.tbList
    [("train/iou_loss", comps.1), ("train/obj_loss", comps.2.1),
     ("train/class_loss", comps.2.2.1), ("train/loss", C.lossV bd)] bd
  if bd % hp.subdivisions = 0 then
    let lr := lr_at hp bd
    ({ params := C.optStep s.params g lr,
       gradAcc := 0,
       seen := s.seen + C.batchSize bd,
       lrGroups := s.lrGroups.map (fun _ => lr),
       evalMetrics := s.evalMetrics,
       lastLoss := some (C.lossV bd) },
     [Event.tbScalar "train/learning_rate" lr bd, tbEv])
  else
    ({ s with gradAcc := g,
              seen := s.seen + C.batchSize bd,
              lastLoss := some (C.lossV bd) },
     [tbEv])

/-- The training batch loop run over a list of `batches_done` counters. -/
def processBatches (hp : Hyperparams) (C : Collab) (bds : List Nat)
    (s : TrainState) : TrainState × List Event :=
  match bds with
  | [] => (s, [])
  | bd :: rest =>
    let p := processBatch hp C bd s
    let q := processBatches hp C rest p.1
    (q.1, p.2 ++ q.2)

/-- The `evaluation_metrics` list built at lines 303-307. -/
def evalMetricsOf (a : EvalArrays) : List (String × ℚ) :=
  [("precision", mean a.precision), ("recall", mean a.recallArr),
   ("mAP", mean a.AP), ("f1", mean a.f1)]

/-- The logging of lines 310-312: for each metric in `evaluation_metrics`,
a sacred scalar `"<subset>.<name>"` at step `epoch + 1` followed by a
TensorBoard list summary of the whole `ems` list at step `epoch`.  `ems`
stays the full list while `l` walks over it. -/
def metricLogAux (subset : String) (epoch : Nat) (ems : List (String × ℚ)) :
    List (String × ℚ) → List Event
  | [] => []
  | m :: l =>
    Event.sacredScalar (subset ++ "." ++ m.1) m.2 (epoch + 1) ::
      Event.tbList ems epoch :: metricLogAux subset epoch ems l

/-- Events emitted by the metric-logging loop for one subset. -/
def metricLogTrace (subset : String) (epoch : Nat)
    (ems : List (String × ℚ)) : List Event :=
  metricLogAux subset epoch ems ems

/-- The read `evaluation_metrics[2][1]` of line 315: the value of the
third entry of the metrics list (every list this script stores there has
exactly four entries, so the default is never used on a reachable
state). -/
def mAPofMetrics (ems : List (String × ℚ)) : ℚ := (ems.getD 2 ("mAP", 0)).2

/-- One iteration of the `for subset in ['training', 'validation']` loop,
lines 285-319: call `_evaluate`; if it produced metrics, rebind
`evaluation_metrics` and log each mean to both sinks; afterwards, for the
validation subset only, read `evaluation_metrics[2][1]` (a `NameError`
when that local was never assigned) and save the best checkpoint when it
strictly exceeds `best_mAP`. -/
def evalSubset (C : Collab) (epoch : Nat) (subset : String) (best_mAP : ℚ)
    (s : TrainState) : Except String (TrainState × List Event) :=
  let s1 : TrainState :=
    match C.evalOut epoch subset with
    | some a => { s with evalMetrics := some (evalMetricsOf a) }
    | none => s
  let trM : List Event :=
    match C.evalOut epoch subset with
    | some a => metricLogTrace subset epoch (evalMetricsOf a)
    | none => []
  if subset = "validation" then
    match s1.evalMetrics with
    | none => Except.error "NameError: evaluation_metrics"
    | some ems =>
      if best_mAP < mAPofMetrics ems then
        Except.ok (s1, Event.evalCall subset epoch :: trM ++ [Event.save CkptPath.bestCkpt])
      else
        Except.ok (s1, Event.evalCall subset epoch :: trM)
  else
    Except.ok (s1, Event.evalCall subset epoch :: trM)

/-- The duplicated batch loop and trailing validation loop, lines 322-340:
forward passes and `compute_loss` only — no backward, no optimizer call,
no `model.seen` update, no logging inside the loops.  Their only effect on
the threaded state is rebinding the Python local `loss`. -/
def extraLoops (C : Collab) (epoch : Nat) (s : TrainState) : TrainState :=
  let s1 := (List.range C.numBatches).foldl
    (fun t batch_i => { t with lastLoss := some (C.extraTrainLoss epoch batch_i) }) s
  (List.range C.numValBatches).foldl
    (fun t batch_i => { t with lastLoss := some (C.extraValLoss epoch batch_i) }) s1

/-- The whole evaluation block, lines 282-341 (body of
`if epoch % evaluation_interval == 0`): the subset loop over training then
validation, the duplicated loops, and the final
`ex.log_scalar("val-loss", loss.item(), epoch+1)`. -/
def evalBlock (C : Collab) (epoch : Nat) (best_mAP : ℚ) (s : TrainState) :
    Except String (TrainState × List Event) :=
  match evalSubset C epoch "training" best_mAP s with
  | Except.error msg => Except.error msg
  | Except.ok p1 =>
    match evalSubset C epoch "validation" best_mAP p1.1 with
    | Except.error msg => Except.error msg
    | Except.ok p2 =>
      let s3 := extraLoops C epoch p2.1
      match s3.lastLoss with
      | none => Except.error "NameError: loss"
      | some v =>
        Except.ok (s3, p1.2 ++ p2.2 ++ [Event.sacredScalar "val-loss" v (epoch + 1)])

/-- One epoch of the loop at lines 193-341: `best_mAP = 0` (line 198,
re-initialized at the top of every epoch), the training batch loop, the
sacred `train-loss` scalar at step `epoch + 1` (a `NameError` when no
batch ever bound `loss`), the epoch checkpoint when
`epoch % checkpoint_interval == 0`, and the evaluation block when
`epoch % evaluation_interval == 0`. -/
def runEpoch (hp : Hyperparams) (C : Collab)
    (checkpoint_interval evaluation_interval epoch : Nat) (s : TrainState) :
    Except String (TrainState × List Event) :=
  let best_mAP : ℚ := 0
  let pb := processBatches hp C (batchIndices C.numBatches epoch) s
  match pb.1.lastLoss with
  | none => Except.error "NameError: loss"
  | some v =>
    let trL : List Event := [Event.sacredScalar "train-loss" v (epoch + 1)]
    let trC : List Event :=
      if epoch % checkpoint_interval = 0 then
        [Event.save (CkptPath.epochCkpt epoch)]
      else []
    if epoch % evaluation_interval = 0 then
      match evalBlock C epoch best_mAP pb.1 with
      | Except.error msg => Except.error msg
      | Except.ok q => Except.ok (q.1, pb.2 ++ trL ++ trC ++ q.2)
    else
      Except.ok (pb.1, pb.2 ++ trL ++ trC)

/-- The epoch loop over a list of epoch indices. -/
def runEpochList (hp : Hyperparams) (C : Collab)
    (checkpoint_interval evaluation_interval : Nat) (es : List Nat)
    (s : TrainState) : Except String (TrainState × List Event) :=
  match es with
  | [] => Except.ok (s, [])
  | e :: rest =>
    match runEpoch hp C checkpoint_interval evaluation_interval e s with
    | Except.error msg => Except.error msg
    | Except.ok p =>
      match runEpochList hp C checkpoint_interval evaluation_interval rest p.1 with
      | Except.error msg => Except.error msg
      | Except.ok q => Except.ok (q.1, p.2 ++ q.2)

/-- `for epoch in range(epochs)`, line 193. -/
def runTraining (hp : Hyperparams) (C : Collab)
    (checkpoint_interval evaluation_interval epochs : Nat) (s : TrainState) :
    Except String (TrainState × List Event) :=
  runEpochList hp C checkpoint_interval evaluation_interval
    (List.range epochs) s

/-- Projection of an `Except` run result to its state-and-trace pair,
defaulting to an empty run.  Used to name the components of concrete
successful runs in witnesses. -/
def runQ (r : Except String (TrainState × List Event)) :
    TrainState × List Event :=
  match r with
  | Except.ok q => q
  | Except.error _ => (initState 0 0, [])

/-! ## Event classification -/

/-- TensorBoard events, the only events the training batch loop emits. -/
def isTbEvent : Event → Bool
  | Event.tbScalar _ _ _ => true
  | Event.tbList _ _ => true
  | _ => false

/-- Events emitted by the metric-logging loop of lines 310-312. -/
def isMetricLogEvent : Event → Bool
  | Event.sacredScalar _ _ _ => true
  | Event.tbList _ _ => true
  | _ => false

/-- Calls into the `_evaluate` collaborator. -/
def isEvalCallEvent : Event → Bool
  | Event.evalCall _ _ => true
  | _ => false

/-- The `_evaluate` call for a given subset at a given epoch. -/
def isEvalCallFor (subset : String) (epoch : Nat) : Event → Bool
  | Event.evalCall s2 e2 => s2 == subset && e2 == epoch
  | _ => false

/-- A write of the best checkpoint `checkpoints/best_ckpt.pth`. -/
def isBestSaveEvent : Event → Bool
  | Event.save CkptPath.bestCkpt => true
  | _ => false

/-- A write of an epoch-named checkpoint file. -/
def isEpochSaveEvent : Event → Bool
  | Event.save (CkptPath.epochCkpt _) => true
  | _ => false

/-- The sacred `val-loss` scalar emitted at line 341. -/
def isValLossEvent : Event → Bool
  | Event.sacredScalar tag _ _ => tag == "val-loss"
  | _ => false

/-- A sacred evaluation-metric scalar logged at a given step. -/
def isSacredAtStep (st : Nat) : Event → Bool
  | Event.sacredScalar _ _ s2 => s2 == st
  | _ => false

/-- A TensorBoard list summary logged at a given step. -/
def isTbListAtStep (st : Nat) : Event → Bool
  | Event.tbList _ s2 => s2 == st
  | _ => false

/-! ## Concrete fixtures for witnesses and counterexamples -/

/-- A one-class evaluation output with all arrays `[1]`. -/
def arraysW : EvalArrays :=
  { precision := [1], recallArr := [1], AP := [1], f1 := [1], ap_class := [0] }

/-- A minimal hyperparameter set: one subdivision, unit base rate, no
burn-in, no schedule steps. -/
def hpW : Hyperparams :=
  { batch := 2, subdivisions := 1, learning_rate := 1, burn_in := 0,
    lr_steps := [], optimizer := some "adam", decay := 0, momentum := 0,
    height := 416 }

/-- A collaborator oracle: one training batch of two images per epoch, one
validation batch, unit gradients and losses, a linear optimizer step, and
`_evaluate` returning `arraysW` for every subset. -/
def CW : Collab :=
  { numBatches := 1, numValBatches := 1, batchSize := fun _ => 2,
    gradC := fun _ => 1, lossV := fun _ => 1,
    lossComps := fun _ => (1, 1, 1, 1),
    optStep := fun p g lr => p + lr * g,
    evalOut := fun _ _ => some arraysW,
    extraTrainLoss := fun _ _ => 1, extraValLoss := fun _ _ => 2 }

/-- `CW` with `_evaluate` producing metrics for the training subset only. -/
def CtrainOnly : Collab :=
  { CW with evalOut := fun _ sub => if sub = "training" then some arraysW else none }

/-- `CW` with `_evaluate` never producing metrics. -/
def Cnone : Collab :=
  { CW with evalOut := fun _ _ => none }

/-- A hyperparameter set whose schedule multipliers are `≤ 1` but
negative. -/
def hpC2cex : Hyperparams :=
  { batch := 1, subdivisions := 1, learning_rate := 1, burn_in := 0,
    lr_steps := [(0, -1), (10, -1)], optimizer := some "sgd", decay := 0,
    momentum := 0, height := 416 }

/-- A hyperparameter set with burn-in 2, two subdivisions and one schedule
step with multiplier 1/2. -/
def hpW2 : Hyperparams :=
  { batch := 2, subdivisions := 2, learning_rate := 1, burn_in := 2,
    lr_steps := [(2, 1/2)], optimizer := some "adam", decay := 0,
    momentum := 0, height := 416 }

/-- `hpW` with an unrecognized optimizer string. -/
def hpBadOpt : Hyperparams := { hpW with optimizer := some "rmsprop" }

/-- A metrics list as an earlier evaluation epoch would leave it in
`evaluation_metrics`, with mean AP 1/2. -/
def staleMetrics : List (String × ℚ) :=
  [("precision", 1), ("recall", 1), ("mAP", 1/2), ("f1", 1)]

/-- A state in which `evaluation_metrics` still holds `staleMetrics` from
an earlier epoch. -/
def sStale : TrainState :=
  { params := 0, gradAcc := 0, seen := 0, lrGroups := [1],
    evalMetrics := some staleMetrics, lastLoss := none }

lemma isTbEvent_not_save {ev : Event} (h : isTbEvent ev = true) :
    ∀ p, ev ≠ Event.save p := by
  cases ev <;> simp_all [isTbEvent]

lemma isTbEvent_not_evalCall {ev : Event} (h : isTbEvent ev = true) :
    isEvalCallFor s e ev = false := by
  cases ev <;> simp_all [isTbEvent, isEvalCallFor]

lemma isMetricLogEvent_not_save {ev : Event} (h : isMetricLogEvent ev = true) :
    ∀ p, ev ≠ Event.save p := by
  cases ev <;> simp_all [isMetricLogEvent]

lemma isMetricLogEvent_not_evalCall {ev : Event} (h : isMetricLogEvent ev = true) :
    isEvalCallFor s e ev = false := by
  cases ev <;> simp_all [isMetricLogEvent, isEvalCallFor]

/-! ## Training batch loop lemmas -/

lemma processBatch_seen (hp : Hyperparams) (C : Collab) (bd : Nat)
    (s : TrainState) :
    (processBatch hp C bd s).1.seen = s.seen + C.batchSize bd := by
  unfold processBatch
  split <;> simp

lemma processBatch_evalMetrics (hp : Hyperparams) (C : Collab) (bd : Nat)
    (s : TrainState) :
    (processBatch hp C bd s).1.evalMetrics = s.evalMetrics := by
  unfold processBatch
  split <;> simp

lemma processBatch_lastLoss (hp : Hyperparams) (C : Collab) (bd : Nat)
    (s : TrainState) :
    (processBatch hp C bd s).1.lastLoss = some (C.lossV bd) := by
  unfold processBatch
  split <;> simp

lemma processBatch_trace_tb (hp : Hyperparams) (C : Collab) (bd : Nat)
    (s : TrainState) :
    ∀ ev ∈ (processBatch hp C bd s).2, isTbEvent ev = true := by
  intro ev hev
  unfold processBatch at hev
  split at hev
  · simp at hev
    rcases hev with h | h <;> subst h <;> rfl
  · simp at hev
    subst hev
    rfl

lemma processBatches_trace_tb (hp : Hyperparams) (C : Collab)
    (bds : List Nat) (s : TrainState) :
    ∀ ev ∈ (processBatches hp C bds s).2, isTbEvent ev = true := by
  induction bds generalizing s with
  | nil => simp [processBatches]
  | cons bd rest ih =>
    intro ev hev
    simp only [processBatches, List.mem_append] at hev
    rcases hev with h | h
    · exact processBatch_trace_tb hp C bd s ev h
    · exact ih _ ev h

/-! ## Learning-rate schedule lemmas -/

lemma lr_foldl_eq (bd : Nat) (l : List (Nat × ℚ)) (a : ℚ) :
    l.foldl (fun lr tv => if tv.1 < bd then lr * tv.2 else lr) a
      = a * ((l.filter (fun tv => tv.1 < bd)).map Prod.snd).prod := by
  induction l generalizing a with
  | nil => simp
  | cons tv rest ih =>
    by_cases h : tv.1 < bd
    · simp [List.filter_cons, h, ih, mul_assoc]
    · simp [List.filter_cons, h, ih]

lemma filter_prod_nonneg_mono (b1 b2 : Nat) (h12 : b1 ≤ b2)
    (l : List (Nat × ℚ)) (hl : ∀ tv ∈ l, 0 ≤ tv.2 ∧ tv.2 ≤ 1) :
    0 ≤ ((l.filter (fun tv => tv.1 < b2)).map Prod.snd).prod ∧
      ((l.filter (fun tv => tv.1 < b2)).map Prod.snd).prod ≤
        ((l.filter (fun tv => tv.1 < b1)).map Prod.snd).prod := by
  induction l with
  | nil => simp
  | cons tv rest ih =>
    obtain ⟨h0, h1⟩ := hl tv (List.mem_cons_self tv rest)
    have hrest := ih (fun x hx => hl x (List.mem_cons_of_mem _ hx))
    by_cases hb1 : tv.1 < b1
    · have hb2 : tv.1 < b2 := lt_of_lt_of_le hb1 h12
      simp only [List.filter_cons, hb1, hb2, decide_True, if_true,
        List.map_cons, List.prod_cons]
      exact ⟨mul_nonneg h0 hrest.1,
        mul_le_mul_of_nonneg_left hrest.2 h0⟩
    · by_cases hb2 : tv.1 < b2
      · simp only [List.filter_cons, hb1, hb2, decide_True, decide_False,
          if_true, if_false, List.map_cons, List.prod_cons]
        refine ⟨mul_nonneg h0 hrest.1, ?_⟩
        calc tv.2 * ((rest.filter (fun tv => tv.1 < b2)).map Prod.snd).prod
            ≤ 1 * ((rest.filter (fun tv => tv.1 < b2)).map Prod.snd).prod :=
              mul_le_mul_of_nonneg_right h1 hrest.1
          _ = ((rest.filter (fun tv => tv.1 < b2)).map Prod.snd).prod :=
              one_mul _
          _ ≤ ((rest.filter (fun tv => tv.1 < b1)).map Prod.snd).prod :=
              hrest.2
      · simp only [List.filter_cons, hb1, hb2, decide_False, if_false]
        exact hrest

/-! ## Evaluation block lemmas -/

lemma metricLogAux_metricLog (subset : String) (epoch : Nat)
    (ems : List (String × ℚ)) (l : List (String × ℚ)) :
    ∀ ev ∈ metricLogAux subset epoch ems l, isMetricLogEvent ev = true := by
  induction l with
  | nil => simp [metricLogAux]
  | cons m rest ih =>
    intro ev hev
    simp only [metricLogAux, List.mem_cons] at hev
    rcases hev with h | h | h
    · subst h; rfl
    · subst h; rfl
    · exact ih ev h

lemma metricLogTrace_metricLog (subset : String) (epoch : Nat)
    (ems : List (String × ℚ)) :
    ∀ ev ∈ metricLogTrace subset epoch ems, isMetricLogEvent ev = true :=
  metricLogAux_metricLog subset epoch ems ems

lemma metricLogAux_mem (subset : String) (epoch : Nat)
    (ems : List (String × ℚ)) (l : List (String × ℚ)) (m : String × ℚ)
    (hm : m ∈ l) :
    Event.sacredScalar (subset ++ "." ++ m.1) m.2 (epoch + 1) ∈
        metricLogAux subset epoch ems l ∧
      Event.tbList ems epoch ∈ metricLogAux subset epoch ems l := by
  induction l with
  | nil => cases hm
  | cons m0 rest ih =>
    rcases List.mem_cons.mp hm with h | h
    · subst h
      exact ⟨List.mem_cons_self _ _,
        List.mem_cons_of_mem _ (List.mem_cons_self _ _)⟩
    · have := ih h
      exact ⟨List.mem_cons_of_mem _ (List.mem_cons_of_mem _ this.1),
        List.mem_cons_of_mem _ (List.mem_cons_of_mem _ this.2)⟩

lemma string_training_ne_validation : ("training" : String) ≠ "validation" := by
  decide

lemma mAPofMetrics_evalMetricsOf (a : EvalArrays) :
    mAPofMetrics (evalMetricsOf a) = mean a.AP := rfl

lemma evalSubset_training_some (C : Collab) (epoch : Nat) (b : ℚ)
    (s : TrainState) (a : EvalArrays)
    (h : C.evalOut epoch "training" = some a) :
    evalSubset C epoch "training" b s =
      Except.ok ({ s with evalMetrics := some (evalMetricsOf a) },
        Event.evalCall "training" epoch ::
          metricLogTrace "training" epoch (evalMetricsOf a)) := by
  unfold evalSubset
  simp [h, string_training_ne_validation]

lemma evalSubset_training_none (C : Collab) (epoch : Nat) (b : ℚ)
    (s : TrainState) (h : C.evalOut epoch "training" = none) :
    evalSubset C epoch "training" b s =
      Except.ok (s, [Event.evalCall "training" epoch]) := by
  unfold evalSubset
  simp [h, string_training_ne_validation]

lemma evalSubset_validation_some (C : Collab) (epoch : Nat) (b : ℚ)
    (s : TrainState) (a : EvalArrays)
    (h : C.evalOut epoch "validation" = some a) :
    evalSubset C epoch "validation" b s =
      Except.ok ({ s with evalMetrics := some (evalMetricsOf a) },
        Event.evalCall "validation" epoch ::
          (metricLogTrace "validation" epoch (evalMetricsOf a) ++
            if b < mean a.AP then [Event.save CkptPath.bestCkpt] else [])) := by
  unfold evalSubset
  by_cases hb : b < mean a.AP
  · simp [h, mAPofMetrics_evalMetricsOf, hb]
  · simp [h, mAPofMetrics_evalMetricsOf, hb]

lemma evalSubset_validation_none_bound (C : Collab) (epoch : Nat) (b : ℚ)
    (s : TrainState) (ems : List (String × ℚ))
    (h : C.evalOut epoch "validation" = none)
    (hem : s.evalMetrics = some ems) :
    evalSubset C epoch "validation" b s =
      Except.ok (s, Event.evalCall "validation" epoch ::
        if b < mAPofMetrics ems then [Event.save CkptPath.bestCkpt]
        else []) := by
  unfold evalSubset
  by_cases hb : b < mAPofMetrics ems
  · simp [h, hem, hb]
  · simp [h, hem, hb]

lemma evalSubset_validation_none_unbound (C : Collab) (epoch : Nat) (b : ℚ)
    (s : TrainState) (h : C.evalOut epoch "validation" = none)
    (hem : s.evalMetrics = none) :
    evalSubset C epoch "validation" b s =
      Except.error "NameError: evaluation_metrics" := by
  unfold evalSubset
  simp [h, hem]

/-- Every event of a successful `evalSubset` is the `_evaluate` call at its
head, a metric-log event, or the best-checkpoint save. -/
lemma evalSubset_ok_shape (C : Collab) (epoch : Nat) (subset : String)
    (b : ℚ) (s : TrainState) (p : TrainState × List Event)
    (h : evalSubset C epoch subset b s = Except.ok p) :
    ∃ rest, p.2 = Event.evalCall subset epoch :: rest ∧
      ∀ ev ∈ rest, isMetricLogEvent ev = true ∨
        ev = Event.save CkptPath.bestCkpt := by
  unfold evalSubset at h
  cases hout : C.evalOut epoch subset with
  | some a =>
    simp only [hout] at h
    by_cases hsub : subset = "validation"
    · rw [if_pos hsub] at h
      split at h
      · injection h with h2
        subst h2
        refine ⟨_, rfl, ?_⟩
        intro ev hev
        rcases List.mem_append.mp hev with h3 | h3
        · exact Or.inl (metricLogTrace_metricLog _ _ _ ev h3)
        · simp at h3
          exact Or.inr h3
      · injection h with h2
        subst h2
        refine ⟨_, rfl, ?_⟩
        intro ev hev
        exact Or.inl (metricLogTrace_metricLog _ _ _ ev hev)
    · rw [if_neg hsub] at h
      injection h with h2
      subst h2
      refine ⟨_, rfl, ?_⟩
      intro ev hev
      exact Or.inl (metricLogTrace_metricLog _ _ _ ev hev)
  | none =>
    simp only [hout] at h
    by_cases hsub : subset = "validation"
    · rw [if_pos hsub] at h
      cases hem : s.evalMetrics with
      | none => rw [hem] at h; cases h
      | some ems =>
        rw [hem] at h
        simp only at h
        split at h
        · injection h with h2
          subst h2
          refine ⟨_, rfl, ?_⟩
          intro ev hev
          simp at hev
          exact Or.inr hev
        · injection h with h2
          subst h2
          exact ⟨[], rfl, by simp⟩
    · rw [if_neg hsub] at h
      injection h with h2
      subst h2
      exact ⟨[], rfl, by simp⟩

/-- A successful training-subset evaluation emits no checkpoint write. -/
lemma evalSubset_training_no_save (C : Collab) (epoch : Nat) (b : ℚ)
    (s : TrainState) (p : TrainState × List Event)
    (h : evalSubset C epoch "training" b s = Except.ok p) :
    ∀ ev ∈ p.2, ∀ cp, ev ≠ Event.save cp := by
  intro ev hev cp
  cases hout : C.evalOut epoch "training" with
  | some a =>
    rw [evalSubset_training_some C epoch b s a hout] at h
    injection h with h2
    subst h2
    rcases List.mem_cons.mp hev with h3 | h3
    · subst h3; simp
    · exact isMetricLogEvent_not_save
        (metricLogTrace_metricLog _ _ _ ev h3) cp
  | none =>
    rw [evalSubset_training_none C epoch b s hout] at h
    injection h with h2
    subst h2
    simp at hev
    subst hev
    simp

/-! ## Duplicated trailing loops -/

lemma foldl_setLastLoss_frame (f : Nat → ℚ) (l : List Nat) (t : TrainState) :
    (l.foldl (fun a i => { a with lastLoss := some (f i) }) t).params = t.params ∧
    (l.foldl (fun a i => { a with lastLoss := some (f i) }) t).gradAcc = t.gradAcc ∧
    (l.foldl (fun a i => { a with lastLoss := some (f i) }) t).seen = t.seen ∧
    (l.foldl (fun a i => { a with lastLoss := some (f i) }) t).lrGroups = t.lrGroups ∧
    (l.foldl (fun a i => { a with lastLoss := some (f i) }) t).evalMetrics = t.evalMetrics := by
  induction l generalizing t with
  | nil => simp
  | cons i rest ih =>
    simpa using ih { t with lastLoss := some (f i) }

lemma extraLoops_frame (C : Collab) (epoch : Nat) (t : TrainState) :
    (extraLoops C epoch t).params = t.params ∧
    (extraLoops C epoch t).gradAcc = t.gradAcc ∧
    (extraLoops C epoch t).seen = t.seen ∧
    (extraLoops C epoch t).lrGroups = t.lrGroups ∧
    (extraLoops C epoch t).evalMetrics = t.evalMetrics := by
  unfold extraLoops
  have h1 := foldl_setLastLoss_frame (C.extraTrainLoss epoch)
    (List.range C.numBatches) t
  have h2 := foldl_setLastLoss_frame (C.extraValLoss epoch)
    (List.range C.numValBatches)
    ((List.range C.numBatches).foldl
      (fun a i => { a with lastLoss := some (C.extraTrainLoss epoch i) }) t)
  refine ⟨?_, ?_, ?_, ?_, ?_⟩
  · exact h2.1.trans h1.1
  · exact h2.2.1.trans h1.2.1
  · exact h2.2.2.1.trans h1.2.2.1
  · exact h2.2.2.2.1.trans h1.2.2.2.1
  · exact h2.2.2.2.2.trans h1.2.2.2.2

lemma foldl_setLastLoss_last (f : Nat → ℚ) (n : Nat) (t : TrainState)
    (h : 0 < n) :
    ((List.range n).foldl (fun a i => { a with lastLoss := some (f i) }) t).lastLoss
      = some (f (n - 1)) := by
  obtain ⟨m, rfl⟩ : ∃ m, n = m + 1 :=
    ⟨n - 1, (Nat.succ_pred_eq_of_pos h).symm⟩
  rw [List.range_succ, List.foldl_append]
  simp

lemma extraLoops_lastLoss (C : Collab) (epoch : Nat) (t : TrainState)
    (h : 0 < C.numValBatches) :
    (extraLoops C epoch t).lastLoss
      = some (C.extraValLoss epoch (C.numValBatches - 1)) := by
  unfold extraLoops
  exact foldl_setLastLoss_last _ _ _ h

/-! ## Evaluation block and epoch inversion -/

lemma evalBlock_ok_inv (C : Collab) (epoch : Nat) (b : ℚ) (s : TrainState)
    (p : TrainState × List Event) (h : evalBlock C epoch b s = Except.ok p) :
    ∃ p1 p2 v, evalSubset C epoch "training" b s = Except.ok p1 ∧
      evalSubset C epoch "validation" b p1.1 = Except.ok p2 ∧
      (extraLoops C epoch p2.1).lastLoss = some v ∧
      p.1 = extraLoops C epoch p2.1 ∧
      p.2 = p1.2 ++ p2.2 ++ [Event.sacredScalar "val-loss" v (epoch + 1)] := by
  unfold evalBlock at h
  cases h1 : evalSubset C epoch "training" b s with
  | error msg => rw [h1] at h; cases h
  | ok p1 =>
    rw [h1] at h
    dsimp only at h
    cases h2 : evalSubset C epoch "validation" b p1.1 with
    | error msg => rw [h2] at h; cases h
    | ok p2 =>
      rw [h2] at h
      dsimp only at h
      cases h3 : (extraLoops C epoch p2.1).lastLoss with
      | none => rw [h3] at h; cases h
      | some v =>
        rw [h3] at h
        injection h with h4
        subst h4
        exact ⟨p1, p2, v, rfl, h2, h3, rfl, rfl⟩

lemma runEpoch_ok_inv (hp : Hyperparams) (C : Collab)
    (ci ei epoch : Nat) (s : TrainState) (p : TrainState × List Event)
    (h : runEpoch hp C ci ei epoch s = Except.ok p) :
    ∃ v, (processBatches hp C (batchIndices C.numBatches epoch) s).1.lastLoss = some v ∧
      ((epoch % ei = 0 ∧
        ∃ q, evalBlock C epoch 0
            (processBatches hp C (batchIndices C.numBatches epoch) s).1 = Except.ok q ∧
          p.1 = q.1 ∧
          p.2 = (processBatches hp C (batchIndices C.numBatches epoch) s).2 ++
            [Event.sacredScalar "train-loss" v (epoch + 1)] ++
            (if epoch % ci = 0 then [Event.save (CkptPath.epochCkpt epoch)] else []) ++
            q.2) ∨
       (¬ epoch % ei = 0 ∧
        p.1 = (processBatches hp C (batchIndices C.numBatches epoch) s).1 ∧
        p.2 = (processBatches hp C (batchIndices C.numBatches epoch) s).2 ++
          [Event.sacredScalar "train-loss" v (epoch + 1)] ++
          (if epoch % ci = 0 then [Event.save (CkptPath.epochCkpt epoch)] else []))) := by
  unfold runEpoch at h
  dsimp only at h
  cases h1 : (processBatches hp C (batchIndices C.numBatches epoch) s).1.lastLoss with
  | none => rw [h1] at h; cases h
  | some v =>
    rw [h1] at h
    dsimp only at h
    refine ⟨v, rfl, ?_⟩
    by_cases hei : epoch % ei = 0
    · rw [if_pos hei] at h
      cases h2 : evalBlock C epoch 0
          (processBatches hp C (batchIndices C.numBatches epoch) s).1 with
      | error msg => rw [h2] at h; cases h
      | ok q =>
        rw [h2] at h
        injection h with h3
        subst h3
        exact Or.inl ⟨hei, q, rfl, rfl, by simp⟩
    · rw [if_neg hei] at h
      injection h with h3
      subst h3
      exact Or.inr ⟨hei, rfl, by simp⟩

lemma countP_eq_zero_of_false {p : Event → Bool} {l : List Event}
    (h : ∀ ev ∈ l, p ev = false) : l.countP p = 0 :=
  List.countP_eq_zero.mpr (by intro a ha; simp [h a ha])

lemma evalSubset_countP_evalCallFor (C : Collab) (epoch : Nat)
    (subset : String) (b : ℚ) (s : TrainState) (p : TrainState × List Event)
    (sub2 : String) (e2 : Nat)
    (h : evalSubset C epoch subset b s = Except.ok p) :
    p.2.countP (isEvalCallFor sub2 e2) =
      if sub2 = subset ∧ e2 = epoch then 1 else 0 := by
  obtain ⟨rest, hsh, hrest⟩ := evalSubset_ok_shape C epoch subset b s p h
  have h0 : rest.countP (isEvalCallFor sub2 e2) = 0 := by
    apply countP_eq_zero_of_false
    intro ev hev
    rcases hrest ev hev with hm | hm
    · exact isMetricLogEvent_not_evalCall hm
    · subst hm; rfl
  rw [hsh, List.countP_cons, h0]
  by_cases hs : sub2 = subset
  · subst hs
    by_cases he : e2 = epoch
    · subst he
      simp [isEvalCallFor]
    · simp [isEvalCallFor, he, show ¬epoch = e2 from fun h2 => he h2.symm]
  · simp [isEvalCallFor, hs, show ¬subset = sub2 from fun h2 => hs h2.symm]

/-- A successful evaluation block never writes an epoch-named
checkpoint. -/
lemma evalBlock_no_epochSave (C : Collab) (epoch : Nat) (b : ℚ)
    (s : TrainState) (q : TrainState × List Event)
    (h : evalBlock C epoch b s = Except.ok q) :
    ∀ e2, Event.save (CkptPath.epochCkpt e2) ∉ q.2 := by
  obtain ⟨p1, p2, v, h1, h2, h3, hq1, hq2⟩ := evalBlock_ok_inv C epoch b s q h
  intro e2 hmem
  rw [hq2] at hmem
  rcases List.mem_append.mp hmem with hmem | hmem
  · rcases List.mem_append.mp hmem with hmem | hmem
    · obtain ⟨rest, hsh, hrest⟩ := evalSubset_ok_shape C epoch _ b s p1 h1
      rw [hsh] at hmem
      rcases List.mem_cons.mp hmem with hc | hc
      · cases hc
      · rcases hrest _ hc with hm | hm
        · exact isMetricLogEvent_not_save hm _ rfl
        · cases hm
    · obtain ⟨rest, hsh, hrest⟩ := evalSubset_ok_shape C epoch _ b p1.1 p2 h2
      rw [hsh] at hmem
      rcases List.mem_cons.mp hmem with hc | hc
      · cases hc
      · rcases hrest _ hc with hm | hm
        · exact isMetricLogEvent_not_save hm _ rfl
        · cases hm
  · simp at hmem

/-- When the validation evaluation of an epoch produces metrics, the best
checkpoint is written by the evaluation block exactly when the mean
validation AP strictly exceeds the `best_mAP` baseline `b`. -/
lemma evalBlock_bestSave_val_some (C : Collab) (epoch : Nat) (b : ℚ)
    (s : TrainState) (q : TrainState × List Event) (arrays : EvalArrays)
    (hv : C.evalOut epoch "validation" = some arrays)
    (h : evalBlock C epoch b s = Except.ok q) :
    (Event.save CkptPath.bestCkpt ∈ q.2 ↔ b < mean arrays.AP) := by
  obtain ⟨p1, p2, v, h1, h2, h3, hq1, hq2⟩ := evalBlock_ok_inv C epoch b s q h
  rw [evalSubset_validation_some C epoch b p1.1 arrays hv] at h2
  injection h2 with h2
  subst h2
  rw [hq2]
  simp only [List.mem_append]
  constructor
  · rintro ((hmem | hmem) | hmem)
    · exact absurd rfl
        (evalSubset_training_no_save C epoch b s p1 h1 _ hmem CkptPath.bestCkpt)
    · rcases List.mem_cons.mp hmem with hc | hc
      · cases hc
      · rcases List.mem_append.mp hc with hm | hm
        · exact absurd rfl
            (isMetricLogEvent_not_save
              (metricLogTrace_metricLog _ _ _ _ hm) CkptPath.bestCkpt)
        · by_cases hb : b < mean arrays.AP
          · exact hb
          · rw [if_neg hb] at hm
            cases hm
    · simp at hmem
  · intro hb
    refine Or.inl (Or.inr ?_)
    refine List.mem_cons_of_mem _ (List.mem_append.mpr (Or.inr ?_))
    rw [if_pos hb]
    exact List.mem_singleton.mpr rfl

/-- When the validation evaluation returns `None` but the training
evaluation of the same epoch produced metrics, the best-checkpoint
decision is made on the training-set mean AP left in
`evaluation_metrics`. -/
lemma evalBlock_bestSave_val_none_train_some (C : Collab) (epoch : Nat)
    (b : ℚ) (s : TrainState) (q : TrainState × List Event)
    (arrays : EvalArrays)
    (ht : C.evalOut epoch "training" = some arrays)
    (hv : C.evalOut epoch "validation" = none)
    (h : evalBlock C epoch b s = Except.ok q) :
    (Event.save CkptPath.bestCkpt ∈ q.2 ↔ b < mean arrays.AP) := by
  obtain ⟨p1, p2, v, h1, h2, h3, hq1, hq2⟩ := evalBlock_ok_inv C epoch b s q h
  rw [evalSubset_training_some C epoch b s arrays ht] at h1
  injection h1 with h1
  subst h1
  rw [evalSubset_validation_none_bound C epoch b _ (evalMetricsOf arrays) hv rfl] at h2
  injection h2 with h2
  subst h2
  rw [hq2]
  simp only [List.mem_append]
  rw [mAPofMetrics_evalMetricsOf]
  constructor
  · rintro ((hmem | hmem) | hmem)
    · rcases List.mem_cons.mp hmem with hc | hc
      · cases hc
      · exact absurd rfl
          (isMetricLogEvent_not_save
            (metricLogTrace_metricLog _ _ _ _ hc) CkptPath.bestCkpt)
    · rcases List.mem_cons.mp hmem with hc | hc
      · cases hc
      · by_cases hb : b < mean arrays.AP
        · exact hb
        · rw [if_neg hb] at hc
          cases hc
    · simp at hmem
  · intro hb
    refine Or.inl (Or.inr ?_)
    refine List.mem_cons_of_mem _ ?_
    rw [if_pos hb]
    exact List.mem_singleton.mpr rfl

/-! ## Claim theorems -/

/-- C5: if the hyperparameter set's `optimizer` field is a string other
than "adam" or "sgd" (and not `None`), optimizer construction does not
fail fast: lines 175-188 only print a warning and bind no optimizer, so
no configuration error is raised before batch processing begins
(`selectOptimizer` is total and returns normally). -/
theorem unknown_optimizer_only_warns (hp : Hyperparams) (str : String)
    (hstr : hp.optimizer = some str) (h1 : str ≠ "adam") (h2 : str ≠ "sgd") :
    selectOptimizer hp =
      (none,
       [Event.printed "Unknown optimizer. Please choose between (adam, sgd)."]) := by
  have hc1 : ¬(hp.optimizer = none ∨ hp.optimizer = some "adam") := by
    rw [hstr]
    simp [h1]
  have hc2 : ¬(hp.optimizer = some "sgd") := by
    rw [hstr]
    simp [h2]
  unfold selectOptimizer
  rw [if_neg hc1, if_neg hc2]

/-- Witness for C5 at the concrete optimizer string "rmsprop". -/
theorem unknown_optimizer_only_warns_witness :
    hpBadOpt.optimizer = some "rmsprop" ∧
    selectOptimizer hpBadOpt =
      (none,
       [Event.printed "Unknown optimizer. Please choose between (adam, sgd)."]) :=
  ⟨rfl, unknown_optimizer_only_warns hpBadOpt "rmsprop" rfl (by decide) (by decide)⟩

/-- C7: after processing the batches whose global counters are `bds`, the
`model.seen` counter has increased by exactly the sum of the image counts
of those batches, regardless of where optimizer-step boundaries fell
(line 262 runs unconditionally for every batch). -/
theorem seen_counter_additive (hp : Hyperparams) (C : Collab)
    (bds : List Nat) (s : TrainState) :
    (processBatches hp C bds s).1.seen = s.seen + (bds.map C.batchSize).sum := by
  induction bds generalizing s with
  | nil => simp [processBatches]
  | cons bd rest ih =>
    simp only [processBatches]
    rw [ih, processBatch_seen]
    simp [Nat.add_assoc]

/-- C2 counterexample: with multipliers that are `≤ 1` but negative, the
post-burn-in learning rate is *not* non-increasing as more thresholds are
exceeded: with steps `[(0, -1), (10, -1)]` the rate at counter 5 is `-1`
and at counter 20 it is back to `1`. -/
theorem lr_monotone_counterexample :
    (hpC2cex.lr_steps.all (fun tv => tv.2 ≤ 1) = true) ∧
    hpC2cex.burn_in ≤ 5 ∧ (5 : Nat) ≤ 20 ∧
    lr_at hpC2cex 5 < lr_at hpC2cex 20 := by
  refine ⟨?_, ?_, ?_, ?_⟩
  · norm_num [hpC2cex]
  · norm_num [hpC2cex]
  · norm_num
  · norm_num [lr_at, hpC2cex]

/-- C2 (amended): the learning rate computed at a counter equals the
spec's piecewise formula (`lr_spec`: linear ramp below `burn_in`, then
`base_lr` times the product of the multipliers of all entries with
`batches_done > threshold`), and — for a non-negative base rate and
multipliers in `[0, 1]`, rather than merely `≤ 1` — the post-burn-in
value is non-increasing as the counter grows and more thresholds are
exceeded. -/
theorem lr_schedule_amended (hp : Hyperparams)
    (hbase : 0 ≤ hp.learning_rate)
    (hmul : ∀ tv ∈ hp.lr_steps, 0 ≤ tv.2 ∧ tv.2 ≤ 1) :
    (∀ bd, lr_at hp bd = lr_spec hp bd) ∧
    (∀ b1 b2, hp.burn_in ≤ b1 → b1 ≤ b2 → lr_at hp b2 ≤ lr_at hp b1) := by
  constructor
  · intro bd
    unfold lr_at lr_spec
    by_cases h : bd < hp.burn_in
    · simp [h]
    · simp only [h, if_false]
      exact lr_foldl_eq bd hp.lr_steps hp.learning_rate
  · intro b1 b2 hb1 h12
    have hb2 : hp.burn_in ≤ b2 := le_trans hb1 h12
    unfold lr_at
    rw [if_neg (not_lt.mpr hb1), if_neg (not_lt.mpr hb2),
      lr_foldl_eq, lr_foldl_eq]
    exact mul_le_mul_of_nonneg_left
      (filter_prod_nonneg_mono b1 b2 h12 hp.lr_steps hmul).2 hbase

/-- Witness for the amended C2 at `hpW2`: the formula at counter 1 (inside
burn-in) and monotonicity from counter 3 to 5. -/
theorem lr_schedule_amended_witness :
    (0 ≤ hpW2.learning_rate) ∧
    lr_at hpW2 1 = lr_spec hpW2 1 ∧
    (hpW2.burn_in ≤ 3 ∧ (3 : Nat) ≤ 5 ∧ lr_at hpW2 5 ≤ lr_at hpW2 3) := by
  have hbase : (0 : ℚ) ≤ hpW2.learning_rate := by norm_num [hpW2]
  have hmul : ∀ tv ∈ hpW2.lr_steps, 0 ≤ tv.2 ∧ tv.2 ≤ 1 := by
    intro tv htv
    simp only [hpW2, List.mem_singleton] at htv
    rw [htv]
    norm_num
  refine ⟨hbase, (lr_schedule_amended hpW2 hbase hmul).1 1, ?_, ?_, ?_⟩
  · norm_num [hpW2]
  · norm_num
  · exact (lr_schedule_amended hpW2 hbase hmul).2 3 5 (by norm_num [hpW2])
      (by norm_num)

/-- C4: on a batch whose counter is off the `subdivisions` boundary the
parameters and parameter-group rates are untouched and the gradient
accumulates additively; on a boundary batch the schedule rate is written
into every parameter group, the optimizer step consumes the accumulated
gradient at exactly that rate, and the gradients are reset; and for a
positive `subdivisions` the boundary condition holds for exactly `k` of
the first `k * subdivisions` consecutive counters — exactly once per
`subdivisions` processed batches. -/
theorem optimizer_step_per_subdivisions (hp : Hyperparams) (C : Collab)
    (bd : Nat) (s : TrainState) :
    (bd % hp.subdivisions ≠ 0 →
        (processBatch hp C bd s).1.params = s.params ∧
        (processBatch hp C bd s).1.gradAcc = s.gradAcc + C.gradC bd ∧
        (processBatch hp C bd s).1.lrGroups = s.lrGroups) ∧
    (bd % hp.subdivisions = 0 →
        (processBatch hp C bd s).1.params =
          C.optStep s.params (s.gradAcc + C.gradC bd) (lr_at hp bd) ∧
        (processBatch hp C bd s).1.gradAcc = 0 ∧
        (processBatch hp C bd s).1.lrGroups =
          s.lrGroups.map (fun _ => lr_at hp bd)) ∧
    (∀ k, 0 < hp.subdivisions →
        (List.range (k * hp.subdivisions)).countP
          (fun b => b % hp.subdivisions == 0) = k) := by
  refine ⟨?_, ?_, ?_⟩
  · intro h
    simp [processBatch, h]
  · intro h
    simp [processBatch, h]
  · intro k hs
    induction k with
    | zero => simp
    | succ k ih =>
      have hrange : List.range ((k + 1) * hp.subdivisions) =
          List.range (k * hp.subdivisions) ++
            (List.range hp.subdivisions).map
              (fun x => k * hp.subdivisions + x) := by
        rw [Nat.succ_mul, List.range_add]
      rw [hrange, List.countP_append, ih]
      have hblock : (List.range hp.subdivisions).countP
          ((fun b => b % hp.subdivisions == 0) ∘
            (fun x => k * hp.subdivisions + x)) = 1 := by
        have hcongr : ∀ x ∈ List.range hp.subdivisions,
            (((fun b => b % hp.subdivisions == 0) ∘
              (fun x => k * hp.subdivisions + x)) x = true ↔
             ((fun x : Nat => x == 0) x = true)) := by
          intro x hx
          have hxlt : x < hp.subdivisions := List.mem_range.mp hx
          have hmod : (k * hp.subdivisions + x) % hp.subdivisions = x := by
            rw [Nat.add_comm, Nat.mul_comm, Nat.add_mul_mod_self_left,
              Nat.mod_eq_of_lt hxlt]
          simp only [Function.comp_apply, hmod]
        rw [List.countP_congr hcongr]
        have : (List.range hp.subdivisions).countP (fun x => x == 0) =
            (List.range hp.subdivisions).count 0 := rfl
        rw [this]
        exact List.count_eq_one_of_mem (List.nodup_range _)
          (List.mem_range.mpr hs)
      rw [List.countP_map, hblock]

/-- Witness for C4 at `hpW2` (two subdivisions): counter 1 is off the
boundary, counter 2 is on it, and the first `3 * 2` counters contain
exactly 3 boundaries. -/
theorem optimizer_step_per_subdivisions_witness :
    ((1 % hpW2.subdivisions ≠ 0 ∧
      (processBatch hpW2 CW 1 (initState 0 1)).1.params = (initState 0 1).params ∧
      (processBatch hpW2 CW 1 (initState 0 1)).1.gradAcc =
        (initState 0 1).gradAcc + CW.gradC 1 ∧
      (processBatch hpW2 CW 1 (initState 0 1)).1.lrGroups =
        (initState 0 1).lrGroups) ∧
     (2 % hpW2.subdivisions = 0 ∧
      (processBatch hpW2 CW 2 (initState 0 1)).1.params =
        CW.optStep (initState 0 1).params
          ((initState 0 1).gradAcc + CW.gradC 2) (lr_at hpW2 2) ∧
      (processBatch hpW2 CW 2 (initState 0 1)).1.gradAcc = 0 ∧
      (processBatch hpW2 CW 2 (initState 0 1)).1.lrGroups =
        (initState 0 1).lrGroups.map (fun _ => lr_at hpW2 2)) ∧
     (0 < hpW2.subdivisions ∧
      (List.range (3 * hpW2.subdivisions)).countP
        (fun b => b % hpW2.subdivisions == 0) = 3)) := by
  refine ⟨⟨?_, ?_⟩, ⟨?_, ?_⟩, ⟨?_, ?_⟩⟩
  · norm_num [hpW2]
  · exact (optimizer_step_per_subdivisions hpW2 CW 1 (initState 0 1)).1
      (by norm_num [hpW2])
  · norm_num [hpW2]
  · exact (optimizer_step_per_subdivisions hpW2 CW 2 (initState 0 1)).2.1
      (by norm_num [hpW2])
  · norm_num [hpW2]
  · exact (optimizer_step_per_subdivisions hpW2 CW 0 (initState 0 1)).2.2 3
      (by norm_num [hpW2])

/-- C9: the global counter `len(training_dataloader) * epoch + batch_i`
is strictly increasing over successive processed batches, also across an
epoch boundary; the rate logged by a batch at a step boundary is exactly
`lr_at` of its counter (a deterministic function of the counter and the
schedule alone); and the rate written into every parameter group at a
boundary is that same function of the counter. -/
theorem batches_done_monotone_deterministic :
    (∀ nb e1 i1 e2 i2, i1 < nb → i2 < nb →
        (e1 < e2 ∨ (e1 = e2 ∧ i1 < i2)) →
        batchesDone nb e1 i1 < batchesDone nb e2 i2) ∧
    (∀ (hp : Hyperparams) (C : Collab) (bd : Nat) (s : TrainState) (v : ℚ),
        Event.tbScalar "train/learning_rate" v bd ∈ (processBatch hp C bd s).2 →
        v = lr_at hp bd) ∧
    (∀ (hp : Hyperparams) (C : Collab) (bd : Nat) (s : TrainState),
        bd % hp.subdivisions = 0 →
        (processBatch hp C bd s).1.lrGroups =
          s.lrGroups.map (fun _ => lr_at hp bd)) := by
  refine ⟨?_, ?_, ?_⟩
  · intro nb e1 i1 e2 i2 h1 h2 hord
    unfold batchesDone
    rcases hord with he | ⟨he, hi⟩
    · calc nb * e1 + i1 < nb * e1 + nb := Nat.add_lt_add_left h1 _
        _ = nb * (e1 + 1) := by ring
        _ ≤ nb * e2 := Nat.mul_le_mul_left nb he
        _ ≤ nb * e2 + i2 := Nat.le_add_right _ _
    · subst he
      exact Nat.add_lt_add_left hi _
  · intro hp C bd s v hmem
    unfold processBatch at hmem
    split at hmem
    · simp at hmem
      exact hmem
    · simp at hmem
  · intro hp C bd s h
    simp [processBatch, h]

/-- Witness for C9: the counter increases across the epoch boundary from
(epoch 0, batch 0) to (epoch 1, batch 0) with one batch per epoch, and at
the concrete boundary batch 0 the logged and applied rate is `lr_at`. -/
theorem batches_done_monotone_deterministic_witness :
    (batchesDone 1 0 0 < batchesDone 1 1 0) ∧
    ((1 : ℚ) = lr_at hpW 0) ∧
    ((processBatch hpW CW 0 (initState 0 1)).1.lrGroups =
      (initState 0 1).lrGroups.map (fun _ => lr_at hpW 0)) := by
  refine ⟨?_, ?_, ?_⟩
  · exact batches_done_monotone_deterministic.1 1 0 0 1 0
      (by norm_num) (by norm_num) (Or.inl (by norm_num))
  · exact batches_done_monotone_deterministic.2.1 hpW CW 0 (initState 0 1) 1
      (by simp [processBatch, hpW, CW, lr_at, initState])
  · exact batches_done_monotone_deterministic.2.2 hpW CW 0 (initState 0 1)
      (by norm_num [hpW])

/-- C6: for a positive `checkpoint_interval`, the epoch-named checkpoint
file `checkpoints/yolov3_ckpt_<e>.pth` is written during epoch `e` iff
`e % checkpoint_interval == 0` (line 273); in particular epoch 0 always
triggers a checkpoint write. -/
theorem epoch_ckpt_iff_interval (hp : Hyperparams) (C : Collab)
    (ci ei epoch : Nat) (s : TrainState) (p : TrainState × List Event)
    (hci : 0 < ci) (hok : runEpoch hp C ci ei epoch s = Except.ok p) :
    (Event.save (CkptPath.epochCkpt epoch) ∈ p.2 ↔ epoch % ci = 0) ∧
    (epoch = 0 → Event.save (CkptPath.epochCkpt epoch) ∈ p.2) := by
  obtain ⟨v, hvloss, hcase⟩ :=
    runEpoch_ok_inv hp C ci ei epoch s p hok
  have htrB : Event.save (CkptPath.epochCkpt epoch) ∉
      (processBatches hp C (batchIndices C.numBatches epoch) s).2 := by
    intro hmem
    exact isTbEvent_not_save
      (processBatches_trace_tb hp C _ s _ hmem) _ rfl
  have hmain : Event.save (CkptPath.epochCkpt epoch) ∈ p.2 ↔
      epoch % ci = 0 := by
    rcases hcase with ⟨hei, q, hq, hp1, hp2⟩ | ⟨hei, hp1, hp2⟩
    · rw [hp2]
      simp only [List.mem_append, List.mem_singleton]
      constructor
      · rintro (((hb | hb) | hb) | hb)
        · exact absurd hb htrB
        · cases hb
        · by_cases hc : epoch % ci = 0
          · exact hc
          · rw [if_neg hc] at hb
            cases hb
        · exact absurd hb (evalBlock_no_epochSave C epoch 0 _ q hq epoch)
      · intro h0
        refine Or.inl (Or.inr ?_)
        rw [if_pos h0]
        exact List.mem_singleton.mpr rfl
    · rw [hp2]
      simp only [List.mem_append, List.mem_singleton]
      constructor
      · rintro ((hb | hb) | hb)
        · exact absurd hb htrB
        · cases hb
        · by_cases hc : epoch % ci = 0
          · exact hc
          · rw [if_neg hc] at hb
            cases hb
      · intro h0
        refine Or.inr ?_
        rw [if_pos h0]
        exact List.mem_singleton.mpr rfl
  exact ⟨hmain, fun h0 => hmain.mpr (by rw [h0]; exact Nat.zero_mod ci)⟩

/-- Witness for C6: a concrete one-batch epoch 0 with interval 1 writes
`yolov3_ckpt_0.pth`. -/
theorem epoch_ckpt_iff_interval_witness :
    (0 : Nat) < 1 ∧
    ((Event.save (CkptPath.epochCkpt 0) ∈
        (runQ (runEpoch hpW CW 1 1 0 (initState 0 1))).2 ↔ (0 : Nat) % 1 = 0) ∧
     ((0 : Nat) = 0 → Event.save (CkptPath.epochCkpt 0) ∈
        (runQ (runEpoch hpW CW 1 1 0 (initState 0 1))).2)) := by
  refine ⟨Nat.one_pos,
    epoch_ckpt_iff_interval hpW CW 1 1 0 (initState 0 1)
      (runQ (runEpoch hpW CW 1 1 0 (initState 0 1))) Nat.one_pos ?_⟩
  simp [runEpoch, processBatches, processBatch, batchIndices, batchesDone,
    lr_at, evalBlock, evalSubset, evalMetricsOf, metricLogTrace,
    metricLogAux, mean, mAPofMetrics, extraLoops, initState, runQ, hpW, CW,
    arraysW, List.range_succ]

/-- C1: in an epoch where evaluation runs and the validation evaluation
produces metrics, the best checkpoint `checkpoints/best_ckpt.pth` is
written iff the current validation mean AP strictly exceeds the largest
validation mean AP previously recorded within the run under the source's
re-initialization — `best_mAP` is set to `0` at the top of every epoch
(line 198) and never updated afterwards, so that baseline is `0`. -/
theorem best_ckpt_iff_val_mAP_pos (hp : Hyperparams) (C : Collab)
    (ci ei epoch : Nat) (s : TrainState) (p : TrainState × List Event)
    (arrays : EvalArrays) (heval : epoch % ei = 0)
    (hv : C.evalOut epoch "validation" = some arrays)
    (hok : runEpoch hp C ci ei epoch s = Except.ok p) :
    (Event.save CkptPath.bestCkpt ∈ p.2 ↔ 0 < mean arrays.AP) := by
  obtain ⟨v, hvloss, hcase⟩ :=
    runEpoch_ok_inv hp C ci ei epoch s p hok
  rcases hcase with ⟨hei, q, hq, hp1, hp2⟩ | ⟨hei, _, _⟩
  · rw [hp2]
    have hbq := evalBlock_bestSave_val_some C epoch 0 _ q arrays hv hq
    simp only [List.mem_append, List.mem_singleton]
    constructor
    · rintro (((hb | hb) | hb) | hb)
      · exact absurd rfl
          (isTbEvent_not_save
            (processBatches_trace_tb hp C _ s _ hb) CkptPath.bestCkpt)
      · cases hb
      · by_cases hc : epoch % ci = 0
        · rw [if_pos hc] at hb
          rcases List.mem_singleton.mp hb with h
          cases h
        · rw [if_neg hc] at hb
          cases hb
      · exact hbq.mp hb
    · intro h0
      exact Or.inr (hbq.mpr h0)
  · exact absurd heval hei

/-- Witness for C1: in the concrete epoch 0 run, `arraysW` has mean AP 1
and the best checkpoint is written. -/
theorem best_ckpt_iff_val_mAP_pos_witness :
    (0 : Nat) % 1 = 0 ∧
    CW.evalOut 0 "validation" = some arraysW ∧
    (Event.save CkptPath.bestCkpt ∈
        (runQ (runEpoch hpW CW 1 1 0 (initState 0 1))).2 ↔
      0 < mean arraysW.AP) := by
  refine ⟨Nat.zero_mod 1, rfl,
    best_ckpt_iff_val_mAP_pos hpW CW 1 1 0 (initState 0 1)
      (runQ (runEpoch hpW CW 1 1 0 (initState 0 1))) arraysW
      (Nat.zero_mod 1) rfl ?_⟩
  simp [runEpoch, processBatches, processBatch, batchIndices, batchesDone,
    lr_at, evalBlock, evalSubset, evalMetricsOf, metricLogTrace,
    metricLogAux, mean, mAPofMetrics, extraLoops, initState, runQ, hpW, CW,
    arraysW, List.range_succ]

/-- C3 counterexample to the matching-step-number clause: in an
evaluation of the training subset at epoch 0, all four sacred metric
scalars carry step `epoch + 1 = 1` while all four TensorBoard list
summaries carry step `epoch = 0` — the two sinks never receive the means
at the same step (lines 311 versus 312). -/
theorem eval_logging_steps_counterexample :
    (evalSubset CW 0 "training" 0 (initState 0 1)).map
      (fun q => (q.2.countP (isSacredAtStep 1), q.2.countP (isSacredAtStep 0),
        q.2.countP (isTbListAtStep 0), q.2.countP (isTbListAtStep 1)))
      = Except.ok (4, 0, 4, 0) := by
  simp [evalSubset, evalMetricsOf, metricLogTrace, metricLogAux, mean,
    mAPofMetrics, CW, arraysW, initState, isSacredAtStep, isTbListAtStep,
    List.countP_cons, Except.map]

/-- C3 (amended): with a positive `evaluation_interval`, an epoch invokes
`_evaluate` iff `epoch % evaluation_interval == 0`, and then exactly once
on the training source and exactly once on the validation source; each
invocation that produces metrics forwards the four scalar means
(precision, recall, mAP, F1) to both sinks — but at steps that differ by
one: the experiment tracker receives them at step `epoch + 1` and the
step-indexed scalar logger at step `epoch`. -/
theorem eval_invocation_amended (hp : Hyperparams) (C : Collab)
    (ci ei epoch : Nat) (s : TrainState) (p : TrainState × List Event)
    (hei : 0 < ei) (hok : runEpoch hp C ci ei epoch s = Except.ok p) :
    (p.2.countP (isEvalCallFor "training" epoch) =
      if epoch % ei = 0 then 1 else 0) ∧
    (p.2.countP (isEvalCallFor "validation" epoch) =
      if epoch % ei = 0 then 1 else 0) ∧
    (∀ subset arrays, (subset = "training" ∨ subset = "validation") →
        epoch % ei = 0 → C.evalOut epoch subset = some arrays →
        ∀ m ∈ evalMetricsOf arrays,
          Event.sacredScalar (subset ++ "." ++ m.1) m.2 (epoch + 1) ∈ p.2 ∧
          Event.tbList (evalMetricsOf arrays) epoch ∈ p.2) := by
  obtain ⟨v, hvloss, hcase⟩ := runEpoch_ok_inv hp C ci ei epoch s p hok
  have htrB : ∀ sub2,
      (processBatches hp C (batchIndices C.numBatches epoch) s).2.countP
        (isEvalCallFor sub2 epoch) = 0 := fun sub2 =>
    countP_eq_zero_of_false
      (fun ev hev => isTbEvent_not_evalCall
        (processBatches_trace_tb hp C _ s ev hev))
  have htrL : ∀ sub2,
      ([Event.sacredScalar "train-loss" v (epoch + 1)]).countP
        (isEvalCallFor sub2 epoch) = 0 := by
    intro sub2
    simp [isEvalCallFor]
  have htrC : ∀ sub2,
      ((if epoch % ci = 0 then [Event.save (CkptPath.epochCkpt epoch)]
        else []) : List Event).countP (isEvalCallFor sub2 epoch) = 0 := by
    intro sub2
    split <;> simp [isEvalCallFor]
  rcases hcase with ⟨heval, q, hq, hpfst, hpsnd⟩ | ⟨heval, hpfst, hpsnd⟩
  · obtain ⟨p1, p2, v2, h1, h2, h3, hq1, hq2⟩ :=
      evalBlock_ok_inv C epoch 0 _ q hq
    have hc1t := evalSubset_countP_evalCallFor C epoch "training" 0 _ p1
      "training" epoch h1
    have hc1v := evalSubset_countP_evalCallFor C epoch "training" 0 _ p1
      "validation" epoch h1
    have hc2t := evalSubset_countP_evalCallFor C epoch "validation" 0 _ p2
      "training" epoch h2
    have hc2v := evalSubset_countP_evalCallFor C epoch "validation" 0 _ p2
      "validation" epoch h2
    refine ⟨?_, ?_, ?_⟩
    · rw [hpsnd, List.countP_append, List.countP_append, List.countP_append,
        htrB, htrL, htrC, hq2, List.countP_append, List.countP_append,
        hc1t, hc2t]
      simp [isEvalCallFor, heval, string_training_ne_validation]
    · rw [hpsnd, List.countP_append, List.countP_append, List.countP_append,
        htrB, htrL, htrC, hq2, List.countP_append, List.countP_append,
        hc1v, hc2v]
      simp [isEvalCallFor, heval,
        show ¬("validation" : String) = "training" from
          fun h => string_training_ne_validation h.symm]
    · intro subset arrays hsub _ hout m hm
      have hboth := metricLogAux_mem subset epoch (evalMetricsOf arrays)
        (evalMetricsOf arrays) m hm
      rcases hsub with rfl | rfl
      · rw [evalSubset_training_some C epoch 0 _ arrays hout] at h1
        injection h1 with h1
        have hsac : Event.sacredScalar ("training" ++ "." ++ m.1) m.2
            (epoch + 1) ∈ p1.2 := by
          rw [← h1]
          exact List.mem_cons_of_mem _ hboth.1
        have htbl : Event.tbList (evalMetricsOf arrays) epoch ∈ p1.2 := by
          rw [← h1]
          exact List.mem_cons_of_mem _ hboth.2
        rw [hpsnd, hq2]
        constructor
        · exact List.mem_append.mpr (Or.inr (List.mem_append.mpr
            (Or.inl (List.mem_append.mpr (Or.inl hsac)))))
        · exact List.mem_append.mpr (Or.inr (List.mem_append.mpr
            (Or.inl (List.mem_append.mpr (Or.inl htbl)))))
      · rw [evalSubset_validation_some C epoch 0 _ arrays hout] at h2
        injection h2 with h2
        have hsac : Event.sacredScalar ("validation" ++ "." ++ m.1) m.2
            (epoch + 1) ∈ p2.2 := by
          rw [← h2]
          exact List.mem_cons_of_mem _
            (List.mem_append.mpr (Or.inl hboth.1))
        have htbl : Event.tbList (evalMetricsOf arrays) epoch ∈ p2.2 := by
          rw [← h2]
          exact List.mem_cons_of_mem _
            (List.mem_append.mpr (Or.inl hboth.2))
        rw [hpsnd, hq2]
        constructor
        · exact List.mem_append.mpr (Or.inr (List.mem_append.mpr
            (Or.inl (List.mem_append.mpr (Or.inr hsac)))))
        · exact List.mem_append.mpr (Or.inr (List.mem_append.mpr
            (Or.inl (List.mem_append.mpr (Or.inr htbl)))))
  · refine ⟨?_, ?_, ?_⟩
    · rw [hpsnd, List.countP_append, List.countP_append,
        htrB, htrL, htrC]
      simp [heval]
    · rw [hpsnd, List.countP_append, List.countP_append,
        htrB, htrL, htrC]
      simp [heval]
    · intro subset arrays hsub heval2 hout m hm
      exact absurd heval2 heval

/-- Witness for the amended C3: the concrete epoch 0 run calls
`_evaluate` once per subset and logs the training precision mean to the
tracker at step 1 and to the scalar logger at step 0. -/
theorem eval_invocation_amended_witness :
    (0 : Nat) < 1 ∧
    ((runQ (runEpoch hpW CW 1 1 0 (initState 0 1))).2.countP
        (isEvalCallFor "training" 0) = if (0 : Nat) % 1 = 0 then 1 else 0) ∧
    ((runQ (runEpoch hpW CW 1 1 0 (initState 0 1))).2.countP
        (isEvalCallFor "validation" 0) = if (0 : Nat) % 1 = 0 then 1 else 0) ∧
    (Event.sacredScalar ("training" ++ "." ++ "precision") 1 (0 + 1) ∈
        (runQ (runEpoch hpW CW 1 1 0 (initState 0 1))).2 ∧
      Event.tbList (evalMetricsOf arraysW) 0 ∈
        (runQ (runEpoch hpW CW 1 1 0 (initState 0 1))).2) := by
  have hok : runEpoch hpW CW 1 1 0 (initState 0 1) =
      Except.ok (runQ (runEpoch hpW CW 1 1 0 (initState 0 1))) := by
    simp [runEpoch, processBatches, processBatch, batchIndices, batchesDone,
      lr_at, evalBlock, evalSubset, evalMetricsOf, metricLogTrace,
      metricLogAux, mean, mAPofMetrics, extraLoops, initState, runQ, hpW,
      CW, arraysW, List.range_succ]
  have h := eval_invocation_amended hpW CW 1 1 0 (initState 0 1)
    (runQ (runEpoch hpW CW 1 1 0 (initState 0 1))) Nat.one_pos hok
  refine ⟨Nat.one_pos, h.1, h.2.1, ?_⟩
  have hmem : (("precision" : String), mean arraysW.precision) ∈
      evalMetricsOf arraysW := by
    simp [evalMetricsOf]
  have h3 := h.2.2 "training" arraysW (Or.inl rfl) (Nat.zero_mod 1) rfl
    _ hmem
  have hval : mean arraysW.precision = 1 := by
    norm_num [mean, arraysW]
  rw [hval] at h3
  exact h3

/-- C8 counterexample: the duplicated loops are reachable and not fully
result-free: running the evaluation block of epoch 0 emits exactly one
sacred `val-loss` scalar, whose value comes from the trailing validation
loop — an observable logged metric produced by the allegedly
non-functional code. -/
theorem dead_loops_counterexample :
    (evalBlock CW 0 0 (initState 0 1)).map
      (fun q => q.2.countP isValLossEvent) = Except.ok 1 := by
  simp [evalBlock, evalSubset, evalMetricsOf, metricLogTrace, metricLogAux,
    mean, mAPofMetrics, extraLoops, CW, arraysW, initState, isValLossEvent,
    List.countP_cons, List.range_succ, Except.map]

/-- C8 (amended): the duplicated batch loop and trailing validation loop
(lines 322-341) run whenever the evaluation block runs; they re-run only
forward passes and change no parameters, accumulated gradients, `seen`
counter, parameter-group rates or stored metrics — but they are not
entirely result-free: the loss of the last trailing validation batch is
consumed by `ex.log_scalar("val-loss", ..., epoch+1)` at line 341, an
extra logged metric. -/
theorem dead_loops_amended (C : Collab) (epoch : Nat) :
    (∀ t : TrainState,
        (extraLoops C epoch t).params = t.params ∧
        (extraLoops C epoch t).gradAcc = t.gradAcc ∧
        (extraLoops C epoch t).seen = t.seen ∧
        (extraLoops C epoch t).lrGroups = t.lrGroups ∧
        (extraLoops C epoch t).evalMetrics = t.evalMetrics) ∧
    (∀ (b : ℚ) (s : TrainState) (q : TrainState × List Event),
        0 < C.numValBatches →
        evalBlock C epoch b s = Except.ok q →
        Event.sacredScalar "val-loss"
          (C.extraValLoss epoch (C.numValBatches - 1)) (epoch + 1) ∈ q.2) := by
  refine ⟨extraLoops_frame C epoch, ?_⟩
  intro b s q hpos hok
  obtain ⟨p1, p2, v, h1, h2, h3, hq1, hq2⟩ :=
    evalBlock_ok_inv C epoch b s q hok
  have hv : v = C.extraValLoss epoch (C.numValBatches - 1) := by
    have hlast := extraLoops_lastLoss C epoch p2.1 hpos
    rw [hlast] at h3
    exact (Option.some.inj h3).symm
  rw [hq2, ← hv]
  exact List.mem_append.mpr (Or.inr (List.mem_singleton.mpr rfl))

/-- Witness for the amended C8 on the concrete epoch 0 evaluation. -/
theorem dead_loops_amended_witness :
    ((extraLoops CW 0 (initState 0 1)).params = (initState 0 1).params ∧
     (extraLoops CW 0 (initState 0 1)).gradAcc = (initState 0 1).gradAcc ∧
     (extraLoops CW 0 (initState 0 1)).seen = (initState 0 1).seen ∧
     (extraLoops CW 0 (initState 0 1)).lrGroups = (initState 0 1).lrGroups ∧
     (extraLoops CW 0 (initState 0 1)).evalMetrics =
       (initState 0 1).evalMetrics) ∧
    (0 < CW.numValBatches ∧
     Event.sacredScalar "val-loss" (CW.extraValLoss 0 (CW.numValBatches - 1))
         (0 + 1) ∈ (runQ (evalBlock CW 0 0 (initState 0 1))).2) := by
  refine ⟨(dead_loops_amended CW 0).1 (initState 0 1), ?_, ?_⟩
  · norm_num [CW]
  · refine (dead_loops_amended CW 0).2 0 (initState 0 1)
      (runQ (evalBlock CW 0 0 (initState 0 1))) (by norm_num [CW]) ?_
    simp [evalBlock, evalSubset, evalMetricsOf, metricLogTrace,
      metricLogAux, mean, mAPofMetrics, extraLoops, CW, arraysW, initState,
      runQ, List.range_succ]

/-- C10 counterexample to the claim's "otherwise the value left over from
the training subset is used": with `evaluation_metrics` still holding
metrics from an earlier epoch (mean AP 1/2) and `_evaluate` returning
`None` for BOTH subsets of epoch 1, the block neither aborts nor uses any
training-subset value of this epoch — it writes the best checkpoint based
on the stale earlier metrics, which were validation metrics. -/
theorem stale_metrics_counterexample :
    Cnone.evalOut 1 "training" = none ∧
    Cnone.evalOut 1 "validation" = none ∧
    (evalBlock Cnone 1 0 sStale).map
      (fun q => (q.2.countP isBestSaveEvent, q.1.evalMetrics))
      = Except.ok (1, some staleMetrics) := by
  refine ⟨rfl, rfl, ?_⟩
  simp [evalBlock, evalSubset, mAPofMetrics, staleMetrics, sStale, Cnone,
    CW, extraLoops, isBestSaveEvent, List.countP_cons, List.range_succ,
    Except.map, mean]

/-- C10 (amended): when the validation evaluation returns `None`, line
315 still reads `evaluation_metrics`: if that local was never assigned —
no metrics this epoch and none left from earlier — the block aborts with
a `NameError`; otherwise the most recently stored metrics are used — in
particular, when the same epoch's training subset produced metrics, the
best-checkpoint decision is made on the training-set mean AP instead of
validation mAP. -/
theorem best_ckpt_fallback_amended (C : Collab) (epoch : Nat) (b : ℚ)
    (s : TrainState) :
    (∀ (arrays : EvalArrays) (q : TrainState × List Event),
        C.evalOut epoch "training" = some arrays →
        C.evalOut epoch "validation" = none →
        evalBlock C epoch b s = Except.ok q →
        (Event.save CkptPath.bestCkpt ∈ q.2 ↔ b < mean arrays.AP)) ∧
    (s.evalMetrics = none →
        C.evalOut epoch "training" = none →
        C.evalOut epoch "validation" = none →
        evalBlock C epoch b s =
          Except.error "NameError: evaluation_metrics") := by
  constructor
  · intro arrays q ht hv hok
    exact evalBlock_bestSave_val_none_train_some C epoch b s q arrays
      ht hv hok
  · intro hem ht hv
    unfold evalBlock
    rw [evalSubset_training_none C epoch b s ht]
    dsimp only
    rw [evalSubset_validation_none_unbound C epoch b s hv hem]

/-- Witness for the amended C10: epoch 0 with training-only metrics uses
the training mean AP for the best-checkpoint decision, and with no
metrics at all the block aborts with the `NameError`. -/
theorem best_ckpt_fallback_amended_witness :
    (CtrainOnly.evalOut 0 "training" = some arraysW ∧
     CtrainOnly.evalOut 0 "validation" = none ∧
     (Event.save CkptPath.bestCkpt ∈
        (runQ (evalBlock CtrainOnly 0 0 (initState 0 1))).2 ↔
      0 < mean arraysW.AP)) ∧
    ((initState 0 1).evalMetrics = none ∧
     Cnone.evalOut 0 "training" = none ∧
     Cnone.evalOut 0 "validation" = none ∧
     evalBlock Cnone 0 0 (initState 0 1) =
       Except.error "NameError: evaluation_metrics") := by
  constructor
  · refine ⟨rfl, by simp [CtrainOnly, CW, string_training_ne_validation],
      (best_ckpt_fallback_amended CtrainOnly 0 0 (initState 0 1)).1 arraysW
        (runQ (evalBlock CtrainOnly 0 0 (initState 0 1))) rfl
        (by simp [CtrainOnly, CW, string_training_ne_validation]) ?_⟩
    simp [evalBlock, evalSubset, evalMetricsOf, metricLogTrace,
      metricLogAux, mean, mAPofMetrics, extraLoops, CtrainOnly, CW,
      arraysW, initState, runQ, List.range_succ,
      string_training_ne_validation]
  · exact ⟨rfl, rfl, rfl,
      (best_ckpt_fallback_amended Cnone 0 0 (initState 0 1)).2 rfl rfl rfl⟩

end YOLOv3Train
